import Mathlib

/-!
Verification of the abcjs engraving core: the horizontal spacing
negotiator, the triplet/grouping-bracket layout and its renderer, the
rest-centering pass, and the selection/history index
(`abc_engraver_controller.js`, `abc_triplet_element.js`, and the
triplet drawing module).

All JavaScript numbers appearing in these routines are used as exact
arithmetic quantities (coordinates, widths, spacing coefficients), so
they are modelled by `ℚ`.  `return null` / absent object fields are
modelled by `Option`.  Where the source compares square roots
(`Math.sqrt`) the embedding compares the squared quantities, which is
truth-value preserving because the square root is strictly monotone on
nonnegative arguments; the sentinel `9999999` becomes its square.
-/

namespace Abcjs

/-- Embedding of `calcHorizontalSpacing` from
`abc_engraver_controller.js`.  `spacingUnits` is the count of
stretchable gaps reported by the staff-group layout, hence a natural
number; the remaining quantities are rationals.  `none` models the
JavaScript `return null`. -/
def calcHorizontalSpacing (isLastLine stretchLast : Bool)
    (targetWidth lineWidth spacing : ℚ) (spacingUnits : ℕ) (minSpace : ℚ) :
    Option ℚ :=
  if isLastLine = true ∧ lineWidth / targetWidth < 66/100 ∧ stretchLast = false then
    none
  else if |targetWidth - lineWidth| < 2 then
    none
  else
    let relSpace : ℚ := (spacingUnits : ℚ) * spacing
    let constSpace : ℚ := lineWidth - relSpace
    if 0 < spacingUnits then
      let spacing2 : ℚ := (targetWidth - constSpace) / (spacingUnits : ℚ)
      if spacing2 * minSpace > 50 then some (50 / minSpace) else some spacing2
    else
      none

/-! ### Triplet / grouping element (`abc_triplet_element.js`) -/

/-- A beam as seen by the triplet layout.  `elems` holds the
identities of the member notes' absolute elements; object identity
(`===` in the source) is modelled by the `id` fields.  `above` is
`isAbove()`; `heightAtMidpoint` and `xAtMidpoint` are the external
beam-geometry queries (out of scope per the spec), carried as
abstract functions. -/
structure Beam where
  id : ℕ
  elems : List ℕ
  above : Bool
  heightAtMidpoint : ℚ → ℚ → ℚ
  xAtMidpoint : ℚ → ℚ → ℚ

/-- The `parent` absolute element of an anchor note: its identity,
staff position `top`, element type string ("rest" or other), and
optional beam membership. -/
structure Parent where
  id : ℕ
  top : ℚ
  type : String
  beam : Option Beam

/-- An anchor of a grouping element: drawn position `x`, width `w`,
and its parent absolute element. -/
structure Anchor where
  x : ℚ
  w : ℚ
  parent : Parent

/-- An interior ("middle") element of a grouping; the layout reads
only its `top`. -/
structure MiddleElem where
  top : ℚ
deriving DecidableEq

/-- The triplet element state.  Fields that are `undefined` until
`layout()` assigns them are modelled with `Option` (default
`none`). -/
structure TripletElem where
  number : ℕ
  anchor1 : Option Anchor
  anchor2 : Option Anchor
  middleElems : List MiddleElem
  flatBeams : Bool
  hasBeam : Option Bool := none
  startNote : Option ℚ := none
  endNote : Option ℚ := none
  yTextPos : Option ℚ := none
  top : Option ℚ := none
  bottom : Option ℚ := none
  endingHeightAbove : Option ℚ := none

/-- The beam test performed at the start of `layout()`:
`this.hasBeam = !!beam1 && beam1 === beam2` followed by the check that
the beam's first element is `anchor1.parent` and its last element is
`anchor2.parent`. -/
def hasBeamCheck (a1 a2 : Anchor) : Bool :=
  match a1.parent.beam, a2.parent.beam with
  | some b1, some b2 =>
      b1.id == b2.id && b1.elems.head? == some a1.parent.id &&
        b1.elems.getLast? == some a2.parent.id
  | _, _ => false

/-- The body of `TripletElem.prototype.layout` that runs when both
anchors are present (the code inside `if (this.anchor1 && this.anchor2)`). -/
def layoutClosed (t : TripletElem) (a1 a2 : Anchor) : TripletElem :=
  if hasBeamCheck a1 a2 then
    match a1.parent.beam with
    | some beam =>
      let left := if beam.above then a1.x + a1.w else a1.x
      let y0 := beam.heightAtMidpoint left a2.x
      let y1 := y0 + (if beam.above then 3 else -2)
      { t with hasBeam := some true, yTextPos := some y1,
               top := some (y1 + 1), bottom := some (y1 - 2),
               endingHeightAbove :=
                 if beam.above then some 4 else t.endingHeightAbove }
    | none => t
  else
    let s0 := max a1.parent.top 9 + 4
    let e0 := max a2.parent.top 9 + 4
    let s1 := if a1.parent.type = "rest" ∧ a2.parent.type ≠ "rest" then e0 else s0
    let e1 := if a2.parent.type = "rest" ∧ a1.parent.type ≠ "rest" then s0 else e0
    let m := (t.middleElems.foldl (fun acc e => max acc e.top) 0) + 4
    let s2 := if m > s1 ∨ m > e1 then m else s1
    let e2 := if m > s1 ∨ m > e1 then m else e1
    let s3 := if t.flatBeams then max s2 e2 else s2
    let e3 := if t.flatBeams then max s2 e2 else e2
    { t with hasBeam := some false, startNote := some s3, endNote := some e3,
             yTextPos := some (s3 + (e3 - s3) / 2),
             top := some (s3 + (e3 - s3) / 2 + 1) }

/-- Embedding of `TripletElem.prototype.layout`.  The trailing
`delete this.middleElems; delete this.flatBeams` (which runs whether
or not the anchors are present) is modelled by resetting the two
scratch fields. -/
def layout (t : TripletElem) : TripletElem :=
  let t1 :=
    match t.anchor1, t.anchor2 with
    | some a1, some a2 => layoutClosed t a1 a2
    | _, _ => t
  { t1 with middleElems := [], flatBeams := false }

/-! ### Triplet renderer (the unnamed triplet drawing module) -/

/-- A drawing primitive emitted by the triplet renderer: either a path
made of `M x1 y1 L x2 y2` line segments or a centered text label. -/
inductive DrawPrim where
  | path (segs : List (ℚ × ℚ × ℚ × ℚ))
  | text (x y : ℚ) (label : ℕ)
deriving DecidableEq

/-- Embedding of `drawBracket`.  `calcY` is the renderer's
staff-position to page-coordinate transform (external collaborator);
each `drawLine` call contributes one `(x1, y1, x2, y2)` segment of the
emitted path, in source order. -/
def drawBracket (calcY : ℚ → ℚ) (x1 y1Pitch x2 y2Pitch : ℚ) : List (ℚ × ℚ × ℚ × ℚ) :=
  let y1 := calcY y1Pitch
  let y2 := calcY y2Pitch
  let bracketHeight : ℚ := 5
  let seg1 := (x1, y1, x1, y1 + bracketHeight)
  let seg2 := (x2, y2, x2, y2 + bracketHeight)
  let midX := x1 + (x2 - x1) / 2
  let gapWidth : ℚ := 8
  let slope := (y2 - y1) / (x2 - x1)
  let leftEndX := midX - gapWidth
  let leftEndY := y1 + (leftEndX - x1) * slope
  let seg3 := (x1, y1, leftEndX, leftEndY)
  let rightStartX := midX + gapWidth
  let rightStartY := y1 + (rightStartX - x1) * slope
  let seg4 := (rightStartX, rightStartY, x2, y2)
  [seg1, seg2, seg3, seg4]

/-- The fields of a finalized triplet element that `drawTriplet`
reads. -/
structure TripletParams where
  hasBeam : Bool
  number : ℕ
  anchor1 : Anchor
  anchor2 : Anchor
  startNote : ℚ
  endNote : ℚ
  yTextPos : ℚ

/-- Embedding of `drawTriplet`: the primitives it emits, in order.
In the beamed branch the anchor's beam is necessarily present in the
source; the `none` fallback value 0 is unreachable there. -/
def drawTriplet (calcY : ℚ → ℚ) (p : TripletParams) : List DrawPrim :=
  if p.hasBeam then
    let xTextPos :=
      match p.anchor1.parent.beam with
      | some beam =>
          beam.xAtMidpoint
            (if beam.above then p.anchor1.x + p.anchor1.w else p.anchor1.x)
            p.anchor2.x
      | none => 0
    [DrawPrim.text xTextPos (calcY p.yTextPos) p.number]
  else
    let xTextPos := p.anchor1.x + (p.anchor2.x + p.anchor2.w - p.anchor1.x) / 2
    [DrawPrim.path
      (drawBracket calcY p.anchor1.x p.startNote (p.anchor2.x + p.anchor2.w) p.endNote),
     DrawPrim.text xTextPos (calcY p.yTextPos) p.number]

/-! ### Selection / history index (`abc_engraver_controller.js`) -/

/-- The bounding box returned by `svgEl.getBBox()` for a drawn
primitive: the drawn shape is modelled by this box, which is all the
history code ever reads from it. -/
structure BBox where
  x : ℚ
  y : ℚ
  width : ℚ
  height : ℚ
deriving DecidableEq

/-- A cached dimension record `{left, top, right, bottom}`. -/
structure Box where
  left : ℚ
  top : ℚ
  right : ℚ
  bottom : ℚ
deriving DecidableEq

/-- JavaScript `Math.round` (round half towards positive infinity). -/
def roundQ (q : ℚ) : ℚ := ((⌊q + 1/2⌋ : ℤ) : ℚ)

/-- The dimension record built by `getDim` from a fresh `getBBox`
call. -/
def roundBox (b : BBox) : Box :=
  { left := roundQ b.x, top := roundQ b.y,
    right := roundQ (b.x + b.width), bottom := roundQ (b.y + b.height) }

/-- One history entry: `{absEl, svgEl, selectable, isDraggable}` plus
the lazily cached `dim`.  Only the fields the verified routines read
are modelled. -/
structure HistEntry where
  selectable : Bool
  svgEl : BBox
  dim : Option Box := none
deriving DecidableEq

/-- `getDim`, instrumented: returns the entry (with the dimension now
cached) together with the number of `getBBox` computations performed
(0 when the cache was already filled, 1 otherwise). -/
def getDim (e : HistEntry) : HistEntry × ℕ :=
  match e.dim with
  | some _ => (e, 0)
  | none => ({ e with dim := some (roundBox e.svgEl) }, 1)

/-- The box an entry presents to the hit test: the cached dimension
when present, else the one `getDim` would compute. -/
def getDimBox (e : HistEntry) : Box :=
  match e.dim with
  | some d => d
  | none => roundBox e.svgEl

/-- The box-union step of `combineHistory`'s loop. -/
def combBox (a d : Box) : Box :=
  { left := min a.left d.left, top := min a.top d.top,
    right := max a.right d.right, bottom := max a.bottom d.bottom }

/-- Embedding of `EngraverController.prototype.combineHistory`,
instrumented with the number of `getBBox` computations.  `items` is
the popped-off suffix in pop order (reversed), so `items[0]` — the
entry that is mutated and pushed back — is the last entry of the
original history.  The empty-`items` branch is unreachable for
`2 ≤ len ≤ history.length` (in the source it would throw). -/
def combineHistory (len : ℕ) (svg : BBox) (history : List HistEntry) :
    List HistEntry × ℕ :=
  if len < 2 then (history, 0)
  else
    let kept := history.take (history.length - len)
    let items := (history.drop (history.length - len)).reverse
    match items with
    | [] => (kept, 0)
    | i0 :: irest =>
      let p0 := getDim i0
      let prest := irest.map getDim
      let count := p0.2 + (prest.map (fun p => p.2)).sum
      let u := (prest.map (fun p => getDimBox p.1)).foldl combBox (getDimBox p0.1)
      (kept ++ [{ p0.1 with svgEl := svg, dim := some u }], count)

/-- The squared distance computed in `mouseDown`'s `else` branch:
`dx`/`dy` are the distances to the nearer vertical/horizontal box
edge, and the source's `Math.sqrt(dx*dx + dy*dy)` is represented by
the squared value `dx*dx + dy*dy`. -/
def distSqEdges (x y : ℚ) (d : Box) : ℚ :=
  let dx := if |x - d.left| > |x - d.right| then |x - d.right| else |x - d.left|
  let dy := if |y - d.top| > |y - d.bottom| then |y - d.bottom| else |y - d.top|
  dx * dx + dy * dy

/-- The effective (squared) distance `mouseDown` associates to an
entry's box: 0 on a strict direct hit, else the edge distance. -/
def hitDistSq (x y : ℚ) (d : Box) : ℚ :=
  if d.left < x ∧ d.right > x ∧ d.top < y ∧ d.bottom > y then 0
  else distSqEdges x y d

/-- The scanning loop of `mouseDown` over the (indexed) history.
`minDistance > 0` is the loop-continuation condition checked before
each iteration; non-selectable entries are skipped; a strict direct
hit records the index and zeroes `minDistance` (ending the scan);
otherwise a strictly smaller distance updates the running minimum.
Distances are squared throughout (see the module comment). -/
def mouseDownScan (x y : ℚ) :
    List (ℕ × HistEntry) → ℚ → Option ℕ → Option ℕ
  | [], _, closestIndex => closestIndex
  | (i, e) :: rest, minDistance, closestIndex =>
    if minDistance ≤ 0 then closestIndex
    else if e.selectable = false then mouseDownScan x y rest minDistance closestIndex
    else
      let d := getDimBox e
      if d.left < x ∧ d.right > x ∧ d.top < y ∧ d.bottom > y then
        mouseDownScan x y rest 0 (some i)
      else
        let h := distSqEdges x y d
        if h < minDistance then mouseDownScan x y rest h (some i)
        else mouseDownScan x y rest minDistance closestIndex

/-- Embedding of the hit test performed by `mouseDown`: the index of
the history entry that becomes the drag target, or `none` when
`closestIndex` stays -1.  The initial `minDistance` 9999999 becomes
its square. -/
def mouseDownHit (history : List HistEntry) (x y : ℚ) : Option ℕ :=
  mouseDownScan x y history.enum (9999999 * 9999999) none

/-- The clamped-distance metric that claim C2 describes (squared):
clamp the point's coordinates to the box independently, then take the
hypotenuse.  This is spec language, not source code. -/
def clampDistSq (x y : ℚ) (d : Box) : ℚ :=
  let dx := x - max d.left (min x d.right)
  let dy := y - max d.top (min y d.bottom)
  dx * dx + dy * dy

/-- Spec-side: the first pair attaining the minimal second component
(ties keep the earlier pair). -/
def firstMinTag : List (ℕ × ℚ) → Option (ℕ × ℚ)
  | [] => none
  | (i, d) :: rest =>
    match firstMinTag rest with
    | none => some (i, d)
    | some (j, m) => if d ≤ m then some (i, d) else some (j, m)

/-- Spec-side description of the hit test (the amended claim C2): the
first selectable entry attaining the minimum effective distance, or
`none` when there is no selectable entry or none lies below the
9999999 sentinel. -/
def specHitFirstMin (history : List HistEntry) (x y : ℚ) : Option ℕ :=
  match firstMinTag ((history.enum.filter (fun p => p.2.selectable)).map
      (fun p => (p.1, hitDistSq x y (getDimBox p.2)))) with
  | none => none
  | some (j, m) => if m < 9999999 * 9999999 then some j else none

/-! ### Rest-centering pass (`centerWholeRests`) -/

/-- A sub-element owned by an absolute element; the pass writes only
its `x`. -/
structure SubElem where
  x : ℚ
deriving DecidableEq

/-- The semantic element behind an absolute element: `rest` holds the
rest subtype string when the element is a rest. -/
structure AbcElem where
  rest : Option String
deriving DecidableEq

/-- An absolute (placed) element of a voice. -/
structure AbsElem where
  x : ℚ
  w : ℚ
  abcelem : AbcElem
  children : List SubElem
deriving DecidableEq

/-- The test selecting the rests that `centerWholeRests` moves. -/
def isCenterRest (e : AbsElem) : Bool :=
  match e.abcelem.rest with
  | some t => t == "whole" || t == "multimeasure"
  | none => false

/-- The re-centering of one rest between the x-positions of its two
neighbours, propagated to its sub-elements. -/
def centerEl (el : AbsElem) (beforeX afterX : ℚ) : AbsElem :=
  let midpoint := (afterX - beforeX) / 2 + beforeX
  let newX := midpoint - el.w / 2
  { el with x := newX, children := el.children.map (fun c => { c with x := newX }) }

/-- The inner loop of `centerWholeRests` over one voice, from the
second element on: `prev` is the element at index `j - 1` in its
current (possibly already re-centered) state, the head of the list is
the element at index `j`, and the next element is read in its
not-yet-processed state — exactly the in-place array traversal of the
source.  The last element (singleton case) is never moved. -/
def centerVoiceAux (prev : AbsElem) : List AbsElem → List AbsElem
  | [] => []
  | [last] => [last]
  | cur :: next :: rest =>
    if isCenterRest cur then
      let cur2 := centerEl cur prev.x next.x
      cur2 :: centerVoiceAux cur2 (next :: rest)
    else
      cur :: centerVoiceAux cur (next :: rest)

/-- One voice of `centerWholeRests`: the first element is never
moved. -/
def centerVoice : List AbsElem → List AbsElem
  | [] => []
  | first :: rest => first :: centerVoiceAux first rest

/-- Embedding of `centerWholeRests` over the voices of a staff
group. -/
def centerWholeRests (voices : List (List AbsElem)) : List (List AbsElem) :=
  voices.map centerVoice

/-! ### Concrete triplet inputs used by counterexamples and witnesses -/

/-- Bracket-mode triplet whose anchors sit at staff positions 20 and 5
with a middle element at 11: after flattening to the interior maximum
(11 + 4 = 15) the start endpoint drops below 4 + max 9 20 = 24. -/
def tripletC3 : TripletElem :=
  { number := 3,
    anchor1 := some { x := 0, w := 5, parent := { id := 1, top := 20, type := "note", beam := none } },
    anchor2 := some { x := 30, w := 5, parent := { id := 2, top := 5, type := "note", beam := none } },
    middleElems := [{ top := 11 }], flatBeams := false }

/-- First anchor of the C3 witness triplet. -/
def anchorC3wa : Anchor :=
  { x := 0, w := 5, parent := { id := 1, top := 10, type := "note", beam := none } }

/-- Second anchor of the C3 witness triplet. -/
def anchorC3wb : Anchor :=
  { x := 30, w := 5, parent := { id := 2, top := 12, type := "note", beam := none } }

/-- A simple bracket-mode triplet (no beams, no middles). -/
def tripletC3w : TripletElem :=
  { number := 3, anchor1 := some anchorC3wa, anchor2 := some anchorC3wb,
    middleElems := [], flatBeams := false }

/-- A beam of three members whose first and last are the triplet's two
anchors, with an extra member (id 5) strictly between them. -/
def beamC7 : Beam :=
  { id := 0, elems := [1, 5, 2], above := true,
    heightAtMidpoint := fun _ _ => 0, xAtMidpoint := fun _ _ => 0 }

/-- First anchor of the C7 triplet, riding `beamC7`. -/
def anchorC7a : Anchor :=
  { x := 0, w := 5, parent := { id := 1, top := 10, type := "note", beam := some beamC7 } }

/-- Second anchor of the C7 triplet, riding `beamC7`. -/
def anchorC7b : Anchor :=
  { x := 20, w := 5, parent := { id := 2, top := 10, type := "note", beam := some beamC7 } }

/-- The C7 triplet: both anchors share `beamC7`, which contains the
extra interior member 5. -/
def tripletC7 : TripletElem :=
  { number := 3, anchor1 := some anchorC7a, anchor2 := some anchorC7b,
    middleElems := [], flatBeams := false }

/-- A two-member beam above the staff whose height query returns 10. -/
def beamC8 : Beam :=
  { id := 0, elems := [1, 2], above := true,
    heightAtMidpoint := fun _ _ => 10, xAtMidpoint := fun _ _ => 4 }

/-- First anchor of the C8 triplet. -/
def anchorC8a : Anchor :=
  { x := 0, w := 5, parent := { id := 1, top := 10, type := "note", beam := some beamC8 } }

/-- Second anchor of the C8 triplet. -/
def anchorC8b : Anchor :=
  { x := 20, w := 5, parent := { id := 2, top := 10, type := "note", beam := some beamC8 } }

/-- The C8 triplet: a beamed pair. -/
def tripletC8 : TripletElem :=
  { number := 3, anchor1 := some anchorC8a, anchor2 := some anchorC8b,
    middleElems := [], flatBeams := false }

/-- A triplet closed without its second anchor, carrying scratch
state. -/
def tripletC9 : TripletElem :=
  { number := 3,
    anchor1 := some { x := 0, w := 5, parent := { id := 1, top := 0, type := "note", beam := none } },
    anchor2 := none, middleElems := [{ top := 5 }], flatBeams := true }


/-- Unbeamed params for the bracket renderer: anchors at x = 0
(width 5) and x = 30 (width 5), level bracket at height 10. -/
def paramsC4 : TripletParams :=
  { hasBeam := false, number := 3,
    anchor1 := { x := 0, w := 5, parent := { id := 1, top := 10, type := "note", beam := none } },
    anchor2 := { x := 30, w := 5, parent := { id := 2, top := 10, type := "note", beam := none } },
    startNote := 10, endNote := 10, yTextPos := 11 }

/-- The two history boxes of the C2 counterexample: a wide box the
pointer faces from below, and a diagonal box. -/
def boxC2A : Box := { left := 0, top := 0, right := 100, bottom := 10 }

/-- Companion box for the C2 counterexample. -/
def boxC2B : Box := { left := 62, top := 36, right := 70, bottom := 40 }

/-- Two selectable entries with cached boxes `boxC2A`, `boxC2B`. -/
def histC2 : List HistEntry :=
  [{ selectable := true, svgEl := { x := 0, y := 0, width := 0, height := 0 }, dim := some boxC2A },
   { selectable := true, svgEl := { x := 0, y := 0, width := 0, height := 0 }, dim := some boxC2B }]

/-- Three history entries with mixed cache states for the
combine-history witness: the first and third have no cached box, the
second has one. -/
def histC5 : List HistEntry :=
  [{ selectable := true, svgEl := { x := 0, y := 0, width := 4, height := 4 }, dim := none },
   { selectable := true, svgEl := { x := 0, y := 0, width := 0, height := 0 },
     dim := some { left := 10, top := 10, right := 12, bottom := 12 } },
   { selectable := false, svgEl := { x := -1, y := 2, width := 3, height := 1 }, dim := none }]

/-- Witness voice for the rest-centering pass: neighbours at x = 10
and x = 50 with one whole rest (width 4) between them. -/
def voiceC6 : List AbsElem :=
  [{ x := 10, w := 1, abcelem := { rest := none }, children := [] },
   { x := 0, w := 4, abcelem := { rest := some "whole" }, children := [{ x := 0 }] },
   { x := 50, w := 1, abcelem := { rest := none }, children := [] }]

/-- Counterexample voice: two adjacent whole rests between two notes,
exposing the in-place traversal (the left neighbour is read after its
own re-centering, the right neighbour before). -/
def voiceC6x : List AbsElem :=
  [{ x := 0, w := 1, abcelem := { rest := none }, children := [] },
   { x := 3, w := 2, abcelem := { rest := some "whole" }, children := [] },
   { x := 10, w := 2, abcelem := { rest := some "whole" }, children := [] },
   { x := 20, w := 1, abcelem := { rest := none }, children := [] }]

/-- Claim C1: the spacing solver stops (returns no new coefficient)
exactly when the line is a short last line (under 66% of target) with
the stretch-last policy off, or the current width is already within 2
units of the target, or there are no spacing units (so the division by
`spacingUnits` is never performed on a zero divisor); otherwise it
returns the coefficient solving
`constantWidth + spacingUnits * coefficient = targetWidth` with
`constantWidth = lineWidth - spacingUnits * currentCoefficient`,
replaced by `50 / minSpace` whenever that solution times `minSpace`
exceeds 50. -/
theorem calcHorizontalSpacing_spec (isLastLine stretchLast : Bool)
    (targetWidth lineWidth spacing : ℚ) (spacingUnits : ℕ) (minSpace : ℚ)
    (hT : 0 < targetWidth) :
    (calcHorizontalSpacing isLastLine stretchLast targetWidth lineWidth spacing
        spacingUnits minSpace = none ↔
      ((isLastLine = true ∧ lineWidth < 66/100 * targetWidth ∧ stretchLast = false) ∨
        |targetWidth - lineWidth| < 2 ∨ spacingUnits = 0)) ∧
    (∀ c, calcHorizontalSpacing isLastLine stretchLast targetWidth lineWidth spacing
        spacingUnits minSpace = some c →
      ∃ sol : ℚ,
        (lineWidth - (spacingUnits : ℚ) * spacing) + (spacingUnits : ℚ) * sol = targetWidth ∧
        c = if sol * minSpace > 50 then 50 / minSpace else sol) := by
  have hdiv : lineWidth / targetWidth < 66/100 ↔ lineWidth < 66/100 * targetWidth :=
    div_lt_iff₀ hT
  constructor
  · simp only [calcHorizontalSpacing]
    split_ifs with h1 h2 h3 h4
    · exact iff_of_true rfl (Or.inl ⟨h1.1, hdiv.mp h1.2.1, h1.2.2⟩)
    · exact iff_of_true rfl (Or.inr (Or.inl h2))
    · refine iff_of_false (by simp) ?_
      rintro (⟨ha, hb, hc'⟩ | hB | hU)
      · exact h1 ⟨ha, hdiv.mpr hb, hc'⟩
      · exact h2 hB
      · omega
    · refine iff_of_false (by simp) ?_
      rintro (⟨ha, hb, hc'⟩ | hB | hU)
      · exact h1 ⟨ha, hdiv.mpr hb, hc'⟩
      · exact h2 hB
      · omega
    · exact iff_of_true rfl (Or.inr (Or.inr (by omega)))
  · intro c hc
    simp only [calcHorizontalSpacing] at hc
    split_ifs at hc with h1 h2 h3 h4
    · have hu : (spacingUnits : ℚ) ≠ 0 := Nat.cast_ne_zero.mpr h3.ne'
      refine ⟨(targetWidth - (lineWidth - (spacingUnits : ℚ) * spacing)) / (spacingUnits : ℚ),
        ?_, ?_⟩
      · field_simp
      · rw [if_pos h4]
        injection hc with hc
        exact hc.symm
    · have hu : (spacingUnits : ℚ) ≠ 0 := Nat.cast_ne_zero.mpr h3.ne'
      refine ⟨(targetWidth - (lineWidth - (spacingUnits : ℚ) * spacing)) / (spacingUnits : ℚ),
        ?_, ?_⟩
      · field_simp
      · rw [if_neg h4]
        injection hc with hc
        exact hc.symm

/-- Witness for C1: a concrete non-degenerate line (not the last line,
width 50 against target 100, ten spacing units) on which the solver
returns the affine solution. -/
theorem calcHorizontalSpacing_spec_witness :
    0 < (100 : ℚ) ∧
    ((calcHorizontalSpacing false false 100 50 3 10 1 = none ↔
      ((false = true ∧ (50 : ℚ) < 66/100 * 100 ∧ false = false) ∨
        |(100 : ℚ) - 50| < 2 ∨ (10 : ℕ) = 0)) ∧
    (∀ c, calcHorizontalSpacing false false 100 50 3 10 1 = some c →
      ∃ sol : ℚ,
        ((50 : ℚ) - ((10 : ℕ) : ℚ) * 3) + ((10 : ℕ) : ℚ) * sol = 100 ∧
        c = if sol * 1 > 50 then 50 / 1 else sol)) :=
  ⟨by norm_num, calcHorizontalSpacing_spec false false 100 50 3 10 1 (by norm_num)⟩

/-! ### Helper lemmas about the triplet layout -/

/-- The initial accumulator is a lower bound of the running-max fold
over the middle elements. -/
theorem foldl_max_init_le (l : List MiddleElem) :
    ∀ a : ℚ, a ≤ l.foldl (fun acc e => max acc e.top) a := by
  induction l with
  | nil => intro a; exact le_refl a
  | cons e t ih =>
    intro a
    exact le_trans (le_max_left a e.top) (ih (max a e.top))

/-- Every middle element's `top` is a lower bound of the running-max
fold. -/
theorem foldl_max_mem_le (l : List MiddleElem) (m : MiddleElem) (hm : m ∈ l) :
    ∀ a : ℚ, m.top ≤ l.foldl (fun acc e => max acc e.top) a := by
  induction l with
  | nil => cases hm
  | cons e t ih =>
    intro a
    rcases List.mem_cons.mp hm with h | h
    · subst h
      exact le_trans (le_max_right a m.top) (foldl_max_init_le t (max a m.top))
    · exact ih h (max a e.top)

/-- With both anchors present, `layout` runs `layoutClosed` and then
discards the scratch fields. -/
theorem layout_closed_eq (t : TripletElem) (a1 a2 : Anchor)
    (h1 : t.anchor1 = some a1) (h2 : t.anchor2 = some a2) :
    layout t = { layoutClosed t a1 a2 with middleElems := [], flatBeams := false } := by
  simp only [layout, h1, h2]

/-- The `hasBeam` field written by `layout` is exactly the outcome of
the beam test. -/
theorem layout_hasBeam_eq (t : TripletElem) (a1 a2 : Anchor)
    (h1 : t.anchor1 = some a1) (h2 : t.anchor2 = some a2) :
    (layout t).hasBeam = some (hasBeamCheck a1 a2) := by
  rw [layout_closed_eq t a1 a2 h1 h2]
  by_cases hb : hasBeamCheck a1 a2
  · rw [hb]
    unfold layoutClosed
    rw [if_pos hb]
    cases hbeam : a1.parent.beam with
    | some b => simp
    | none =>
      exfalso
      rw [hasBeamCheck, hbeam] at hb
      exact Bool.false_ne_true hb
  · rw [Bool.not_eq_true] at hb
    rw [hb]
    unfold layoutClosed
    rw [hb]
    simp

/-- One endpoint after the rest override is either the first or the
second anchor-derived value, so the minimum of the two bounds it. -/
theorem min_le_ite_right (S0 E0 : ℚ) (A : Prop) [Decidable A] :
    min S0 E0 ≤ if A then E0 else S0 := by
  split_ifs
  · exact min_le_right _ _
  · exact min_le_left _ _

/-- Symmetric version for the second endpoint. -/
theorem min_le_ite_left (S0 E0 : ℚ) (B : Prop) [Decidable B] :
    min S0 E0 ≤ if B then S0 else E0 := by
  split_ifs
  · exact min_le_left _ _
  · exact min_le_right _ _

/-- The arithmetic core of the bracket bounds: after the interior
flattening step (condition `C`) and the flat-brackets step, both
endpoints stay above `min S0 E0` and above the interior maximum
`M4`. -/
theorem c3core (S0 E0 M4 s1 e1 : ℚ)
    (hs1 : min S0 E0 ≤ s1) (he1 : min S0 E0 ≤ e1)
    (C : Prop) [Decidable C] (hC : C → (M4 > s1 ∨ M4 > e1))
    (hnC : ¬C → M4 ≤ s1 ∧ M4 ≤ e1) (flat : Bool) :
    min S0 E0 ≤ (if flat = true then max (if C then M4 else s1) (if C then M4 else e1)
        else if C then M4 else s1) ∧
    min S0 E0 ≤ (if flat = true then max (if C then M4 else s1) (if C then M4 else e1)
        else if C then M4 else e1) ∧
    M4 ≤ (if flat = true then max (if C then M4 else s1) (if C then M4 else e1)
        else if C then M4 else s1) ∧
    M4 ≤ (if flat = true then max (if C then M4 else s1) (if C then M4 else e1)
        else if C then M4 else e1) := by
  by_cases hc : C
  · have hmin : min S0 E0 ≤ M4 := by
      rcases hC hc with h | h
      · exact le_trans hs1 h.le
      · exact le_trans he1 h.le
    simp only [if_pos hc, max_self, ite_self]
    exact ⟨hmin, hmin, le_refl _, le_refl _⟩
  · obtain ⟨hg1, hg2⟩ := hnC hc
    simp only [if_neg hc]
    cases flat with
    | false =>
      simp only [Bool.false_eq_true, if_false]
      exact ⟨hs1, he1, hg1, hg2⟩
    | true =>
      simp only [if_pos rfl]
      exact ⟨le_trans hs1 (le_max_left _ _), le_trans hs1 (le_max_left _ _),
        le_trans hg1 (le_max_left _ _), le_trans hg1 (le_max_left _ _)⟩

/-- In bracket mode the two endpoints exist and are bounded below by
the smaller anchor-derived endpoint and by the interior running
maximum plus the 4-unit margin. -/
theorem layoutClosed_bracket_bounds (t : TripletElem) (a1 a2 : Anchor)
    (hb : hasBeamCheck a1 a2 = false) :
    ∃ s e : ℚ, (layoutClosed t a1 a2).startNote = some s ∧
      (layoutClosed t a1 a2).endNote = some e ∧
      min (max a1.parent.top 9 + 4) (max a2.parent.top 9 + 4) ≤ s ∧
      min (max a1.parent.top 9 + 4) (max a2.parent.top 9 + 4) ≤ e ∧
      (t.middleElems.foldl (fun acc x => max acc x.top) 0) + 4 ≤ s ∧
      (t.middleElems.foldl (fun acc x => max acc x.top) 0) + 4 ≤ e := by
  have P := c3core (max a1.parent.top 9 + 4) (max a2.parent.top 9 + 4)
    ((t.middleElems.foldl (fun acc x => max acc x.top) 0) + 4)
    (if a1.parent.type = "rest" ∧ a2.parent.type ≠ "rest"
      then max a2.parent.top 9 + 4 else max a1.parent.top 9 + 4)
    (if a2.parent.type = "rest" ∧ a1.parent.type ≠ "rest"
      then max a1.parent.top 9 + 4 else max a2.parent.top 9 + 4)
    (min_le_ite_right _ _ _) (min_le_ite_left _ _ _)
    _ (fun h => h)
    (fun h => ⟨le_of_not_lt (fun hl => h (Or.inl hl)),
               le_of_not_lt (fun hl => h (Or.inr hl))⟩)
    t.flatBeams
  unfold layoutClosed
  rw [hb]
  simp only [Bool.false_eq_true, if_false]
  exact ⟨_, _, rfl, rfl, P.1, P.2.1, P.2.2.1, P.2.2.2⟩

/-- Counterexample to claim C3 as stated: in `tripletC3` the first
anchor sits at staff position 20, so the claim demands
`startNote ≥ 4 + max 9 20 = 24`; but a middle element at 11 triggers
the flattening step, which sets both endpoints to 15. -/
theorem c3_counterexample :
    (layout tripletC3).hasBeam = some false ∧
    (layout tripletC3).startNote = some 15 ∧
    ¬ ((4 : ℚ) + max 9 20 ≤ 15) := by
  refine ⟨rfl, ?_, by norm_num⟩
  norm_num [layout, layoutClosed, hasBeamCheck, tripletC3]

/-- Claim C3 (amended): in bracket mode both final endpoints are
≥ 4 + the smaller of the two anchors' clamped staff positions
(`max 9 top`), and ≥ 4 + every interior middle element's top.  (The
claim's per-anchor lower bound fails: the rest override and the
interior flattening step can lower an endpoint below its own anchor's
bound, as `c3_counterexample` shows.) -/
theorem c3_amended (t : TripletElem) (a1 a2 : Anchor)
    (h1 : t.anchor1 = some a1) (h2 : t.anchor2 = some a2)
    (hb : hasBeamCheck a1 a2 = false) :
    ∃ s e : ℚ, (layout t).startNote = some s ∧ (layout t).endNote = some e ∧
      4 + min (max 9 a1.parent.top) (max 9 a2.parent.top) ≤ s ∧
      4 + min (max 9 a1.parent.top) (max 9 a2.parent.top) ≤ e ∧
      ∀ m ∈ t.middleElems, 4 + m.top ≤ s ∧ 4 + m.top ≤ e := by
  obtain ⟨s, e, hs, he, hbs, hbe, hms, hme⟩ := layoutClosed_bracket_bounds t a1 a2 hb
  have hl := layout_closed_eq t a1 a2 h1 h2
  have hminEq : min (max a1.parent.top 9 + 4) (max a2.parent.top 9 + 4) =
      4 + min (max 9 a1.parent.top) (max 9 a2.parent.top) := by
    rw [max_comm a1.parent.top 9, max_comm a2.parent.top 9]
    rcases le_total (max 9 a1.parent.top) (max 9 a2.parent.top) with h | h
    · rw [min_eq_left (by linarith), min_eq_left h]
      ring
    · rw [min_eq_right (by linarith), min_eq_right h]
      ring
  refine ⟨s, e, ?_, ?_, ?_, ?_, ?_⟩
  · rw [hl]; exact hs
  · rw [hl]; exact he
  · rw [← hminEq]; exact hbs
  · rw [← hminEq]; exact hbe
  · intro m hm
    have hfold := foldl_max_mem_le t.middleElems m hm 0
    constructor
    · calc 4 + m.top = m.top + 4 := by ring
        _ ≤ (t.middleElems.foldl (fun acc x => max acc x.top) 0) + 4 := by linarith
        _ ≤ s := hms
    · calc 4 + m.top = m.top + 4 := by ring
        _ ≤ (t.middleElems.foldl (fun acc x => max acc x.top) 0) + 4 := by linarith
        _ ≤ e := hme

/-- Witness for C3 (amended) at the concrete bracket-mode triplet
`tripletC3w`. -/
theorem c3_amended_witness :
    tripletC3w.anchor1 = some anchorC3wa ∧
    hasBeamCheck anchorC3wa anchorC3wb = false ∧
    ∃ s e : ℚ, (layout tripletC3w).startNote = some s ∧
      (layout tripletC3w).endNote = some e ∧
      4 + min (max 9 anchorC3wa.parent.top) (max 9 anchorC3wb.parent.top) ≤ s ∧
      4 + min (max 9 anchorC3wa.parent.top) (max 9 anchorC3wb.parent.top) ≤ e ∧
      ∀ m ∈ tripletC3w.middleElems, 4 + m.top ≤ s ∧ 4 + m.top ≤ e :=
  ⟨rfl, rfl,
    c3_amended tripletC3w anchorC3wa anchorC3wb rfl rfl rfl⟩

/-- Counterexample to claim C7 as stated: both anchors of `tripletC7`
share `beamC7`, whose member list `[1, 5, 2]` contains the extra note
5 outside the anchor pair; the claim says any such extra note forces
bracket mode, but `layout` still sets `hasBeam` to `true` because the
code only compares the beam's first and last members. -/
theorem c7_counterexample :
    (layout tripletC7).hasBeam = some true ∧
    (5 : ℕ) ∈ beamC7.elems ∧
    anchorC7a.parent.id ≠ 5 ∧ anchorC7b.parent.id ≠ 5 := by
  refine ⟨by decide, by decide, by decide, by decide⟩

/-- Claim C7 (amended): with both anchors present, `layout` sets
`hasBeam` to `true` iff the anchors' parents carry the same (non-null)
beam whose first member is the first anchor's parent and whose last
member is the second anchor's parent.  Extra members strictly between
the two anchors do not force bracket mode; only an extra member before
the first or after the last anchor does. -/
theorem c7_amended (t : TripletElem) (a1 a2 : Anchor)
    (h1 : t.anchor1 = some a1) (h2 : t.anchor2 = some a2) :
    (layout t).hasBeam = some true ↔
      ∃ b1 b2 : Beam, a1.parent.beam = some b1 ∧ a2.parent.beam = some b2 ∧
        b1.id = b2.id ∧ b1.elems.head? = some a1.parent.id ∧
        b1.elems.getLast? = some a2.parent.id := by
  rw [layout_hasBeam_eq t a1 a2 h1 h2]
  cases hb1 : a1.parent.beam with
  | none => simp [hasBeamCheck, hb1]
  | some b1 =>
    cases hb2 : a2.parent.beam with
    | none => simp [hasBeamCheck, hb1, hb2]
    | some b2 =>
      simp only [hasBeamCheck, hb1, hb2, Option.some.injEq, Bool.and_eq_true,
        beq_iff_eq]
      constructor
      · rintro ⟨⟨hid, hhead⟩, hlast⟩
        exact ⟨b1, b2, rfl, rfl, hid, hhead, hlast⟩
      · rintro ⟨c1, c2, hc1, hc2, hid, hhead, hlast⟩
        cases hc1
        cases hc2
        exact ⟨⟨hid, hhead⟩, hlast⟩

/-- Witness for C7 (amended) at the concrete beamed pair
`tripletC8` (a beam with exactly the two anchors as members). -/
theorem c7_amended_witness :
    tripletC8.anchor1 = some anchorC8a ∧ tripletC8.anchor2 = some anchorC8b ∧
    ((layout tripletC8).hasBeam = some true ↔
      ∃ b1 b2 : Beam, anchorC8a.parent.beam = some b1 ∧
        anchorC8b.parent.beam = some b2 ∧
        b1.id = b2.id ∧ b1.elems.head? = some anchorC8a.parent.id ∧
        b1.elems.getLast? = some anchorC8b.parent.id) :=
  ⟨rfl, rfl, c7_amended tripletC8 anchorC8a anchorC8b rfl rfl⟩

/-- Claim C8: for a beamed grouping, the label y-position is the
beam's height at the horizontal midpoint plus 3 when the beam is above
the staff and minus 2 when below, `top` is label-y + 1 and `bottom` is
label-y − 2; and the renderer emits only the centered label for beamed
params (no bracket path). -/
theorem c8_beamed (t : TripletElem) (a1 a2 : Anchor) (b : Beam)
    (h1 : t.anchor1 = some a1) (h2 : t.anchor2 = some a2)
    (hbeam : a1.parent.beam = some b) (hb : hasBeamCheck a1 a2 = true) :
    ∃ y : ℚ,
      (layout t).yTextPos = some y ∧
      y = b.heightAtMidpoint (if b.above then a1.x + a1.w else a1.x) a2.x +
        (if b.above then 3 else -2) ∧
      (layout t).top = some (y + 1) ∧
      (layout t).bottom = some (y - 2) ∧
      ∀ (calcY : ℚ → ℚ) (p : TripletParams), p.hasBeam = true →
        ∃ xpos, drawTriplet calcY p = [DrawPrim.text xpos (calcY p.yTextPos) p.number] := by
  rw [layout_closed_eq t a1 a2 h1 h2]
  unfold layoutClosed
  rw [if_pos hb, hbeam]
  refine ⟨_, rfl, rfl, ?_, ?_, ?_⟩
  · simp
  · simp
  · intro calcY p hp
    rw [drawTriplet, if_pos hp]
    exact ⟨_, rfl⟩

/-- Witness for C8 at the concrete beamed triplet `tripletC8`
(beam above, height 10 at the midpoint, so the label sits at 13). -/
theorem c8_beamed_witness :
    tripletC8.anchor1 = some anchorC8a ∧ tripletC8.anchor2 = some anchorC8b ∧
    anchorC8a.parent.beam = some beamC8 ∧ hasBeamCheck anchorC8a anchorC8b = true ∧
    ∃ y : ℚ,
      (layout tripletC8).yTextPos = some y ∧
      y = beamC8.heightAtMidpoint
          (if beamC8.above then anchorC8a.x + anchorC8a.w else anchorC8a.x)
          anchorC8b.x + (if beamC8.above then 3 else -2) ∧
      (layout tripletC8).top = some (y + 1) ∧
      (layout tripletC8).bottom = some (y - 2) ∧
      ∀ (calcY : ℚ → ℚ) (p : TripletParams), p.hasBeam = true →
        ∃ xpos, drawTriplet calcY p = [DrawPrim.text xpos (calcY p.yTextPos) p.number] :=
  ⟨rfl, rfl, rfl, rfl, c8_beamed tripletC8 anchorC8a anchorC8b beamC8 rfl rfl rfl rfl⟩

/-- Counterexample to claim C9 as stated: `layout` on a triplet with a
missing second anchor is not a state-preserving no-op — the trailing
`delete this.middleElems; delete this.flatBeams` still runs, so the
scratch fields change. -/
theorem c9_counterexample :
    (layout tripletC9).middleElems ≠ tripletC9.middleElems ∧
    layout tripletC9 ≠ tripletC9 ∧
    (layout tripletC9).hasBeam = none ∧
    (layout tripletC9).startNote = none := by
  refine ⟨by decide, ?_, by decide, by decide⟩
  intro h
  exact absurd (congrArg TripletElem.middleElems h)
    (by decide : (layout tripletC9).middleElems ≠ tripletC9.middleElems)

/-- Claim C9 (amended): with a missing anchor, `layout` sets none of
`hasBeam`, `startNote`, `endNote`, `yTextPos`, `top`, `bottom` and
leaves every field unchanged except the two scratch fields
`middleElems` and `flatBeams`, which it discards. -/
theorem c9_amended (t : TripletElem) (h : t.anchor1 = none ∨ t.anchor2 = none) :
    layout t = { t with middleElems := [], flatBeams := false } := by
  rcases h with h | h
  · cases h2 : t.anchor2 <;> simp [layout, h, h2]
  · cases h1 : t.anchor1 <;> simp [layout, h, h1]

/-- Witness for C9 (amended) at `tripletC9` (second anchor missing, a
middle element and the flat-beams flag set). -/
theorem c9_amended_witness :
    (tripletC9.anchor1 = none ∨ tripletC9.anchor2 = none) ∧
    layout tripletC9 = { tripletC9 with middleElems := [], flatBeams := false } :=
  ⟨Or.inr rfl, c9_amended tripletC9 (Or.inr rfl)⟩

/-- Counterexample to claim C4 as stated: on `paramsC4` the bracket's
broken-line gap runs from `midX - 8` to `midX + 8`, i.e. it is 16
units wide, not 8; and the second vertical tick stands at
`anchor2.x + anchor2.w = 35`, not at the anchor's x-position 30. -/
theorem c4_counterexample :
    drawTriplet (fun q => q) paramsC4 =
      [DrawPrim.path [(0, 10, 0, 15), (35, 10, 35, 15),
        (0, 10, 19/2, 10), (51/2, 10, 35, 10)],
       DrawPrim.text (35/2) 11 3] ∧
    (51/2 : ℚ) - 19/2 = 16 ∧ ¬ ((51/2 : ℚ) - 19/2 = 8) ∧
    ¬ ((35 : ℚ) = paramsC4.anchor2.x) := by
  refine ⟨?_, by norm_num, by norm_num, by norm_num [paramsC4]⟩
  norm_num [drawTriplet, drawBracket, paramsC4]

/-- Claim C4 (amended): for unbeamed params the renderer emits exactly
one bracket path followed by the centered label; the path's two
vertical ticks stand at the bracket x-endpoints `anchor1.x` and
`anchor2.x + anchor2.w`; the broken line's gap is 16 units wide
(8 on each side), centered at the horizontal midpoint of these two
endpoints; and both broken-line pieces lie on the line from
`(x1, y1)` to `(x2, y2)` (when the endpoints are horizontally
distinct). -/
theorem c4_amended (calcY : ℚ → ℚ) (p : TripletParams) (hb : p.hasBeam = false) :
    ∃ segs,
      drawTriplet calcY p =
        [DrawPrim.path segs,
         DrawPrim.text (p.anchor1.x + (p.anchor2.x + p.anchor2.w - p.anchor1.x) / 2)
           (calcY p.yTextPos) p.number] ∧
      segs = drawBracket calcY p.anchor1.x p.startNote
        (p.anchor2.x + p.anchor2.w) p.endNote ∧
      (let x1 := p.anchor1.x
       let x2 := p.anchor2.x + p.anchor2.w
       let y1 := calcY p.startNote
       let y2 := calcY p.endNote
       let midX := x1 + (x2 - x1) / 2
       let slope := (y2 - y1) / (x2 - x1)
       segs = [(x1, y1, x1, y1 + 5), (x2, y2, x2, y2 + 5),
               (x1, y1, midX - 8, y1 + (midX - 8 - x1) * slope),
               (midX + 8, y1 + (midX + 8 - x1) * slope, x2, y2)] ∧
       (midX + 8) - (midX - 8) = 16 ∧
       midX - (midX - 8) = 8 ∧ (midX + 8) - midX = 8 ∧
       (x1 ≠ x2 →
         (y1 + (midX - 8 - x1) * slope - y1) * (x2 - x1) =
           (y2 - y1) * (midX - 8 - x1) ∧
         (y1 + (midX + 8 - x1) * slope - y1) * (x2 - x1) =
           (y2 - y1) * (midX + 8 - x1))) := by
  refine ⟨drawBracket calcY p.anchor1.x p.startNote (p.anchor2.x + p.anchor2.w) p.endNote,
    ?_, rfl, rfl, by ring, by ring, by ring, ?_⟩
  · simp only [drawTriplet, hb, Bool.false_eq_true, if_false]
  · intro hne
    have hx : p.anchor2.x + p.anchor2.w - p.anchor1.x ≠ 0 := sub_ne_zero.mpr hne.symm
    constructor <;> (field_simp; ring)

/-- Witness for C4 (amended) at the concrete unbeamed params
`paramsC4` with the identity coordinate transform. -/
theorem c4_amended_witness :
    paramsC4.hasBeam = false ∧
    ∃ segs,
      drawTriplet (fun q => q) paramsC4 =
        [DrawPrim.path segs,
         DrawPrim.text (paramsC4.anchor1.x +
             (paramsC4.anchor2.x + paramsC4.anchor2.w - paramsC4.anchor1.x) / 2)
           ((fun q => q) paramsC4.yTextPos) paramsC4.number] ∧
      segs = drawBracket (fun q => q) paramsC4.anchor1.x paramsC4.startNote
        (paramsC4.anchor2.x + paramsC4.anchor2.w) paramsC4.endNote ∧
      (let x1 := paramsC4.anchor1.x
       let x2 := paramsC4.anchor2.x + paramsC4.anchor2.w
       let y1 := (fun q => q) paramsC4.startNote
       let y2 := (fun q => q) paramsC4.endNote
       let midX := x1 + (x2 - x1) / 2
       let slope := (y2 - y1) / (x2 - x1)
       segs = [(x1, y1, x1, y1 + 5), (x2, y2, x2, y2 + 5),
               (x1, y1, midX - 8, y1 + (midX - 8 - x1) * slope),
               (midX + 8, y1 + (midX + 8 - x1) * slope, x2, y2)] ∧
       (midX + 8) - (midX - 8) = 16 ∧
       midX - (midX - 8) = 8 ∧ (midX + 8) - midX = 8 ∧
       (x1 ≠ x2 →
         (y1 + (midX - 8 - x1) * slope - y1) * (x2 - x1) =
           (y2 - y1) * (midX - 8 - x1) ∧
         (y1 + (midX + 8 - x1) * slope - y1) * (x2 - x1) =
           (y2 - y1) * (midX + 8 - x1))) :=
  ⟨rfl, c4_amended (fun q => q) paramsC4 rfl⟩

/-! ### Helper lemmas for the hit test -/

/-- The edge-projected squared distance is nonnegative. -/
theorem distSqEdges_nonneg (x y : ℚ) (d : Box) : 0 ≤ distSqEdges x y d :=
  add_nonneg (mul_self_nonneg _) (mul_self_nonneg _)

/-- The effective hit distance is nonnegative. -/
theorem hitDistSq_nonneg (x y : ℚ) (d : Box) : 0 ≤ hitDistSq x y d := by
  unfold hitDistSq
  split_ifs
  · exact le_refl 0
  · exact distSqEdges_nonneg x y d

/-- `firstMinTag` returns a member of its input. -/
theorem firstMinTag_mem (l : List (ℕ × ℚ)) :
    ∀ p : ℕ × ℚ, firstMinTag l = some p → p ∈ l := by
  induction l with
  | nil => intro p h; simp [firstMinTag] at h
  | cons q t ih =>
    intro p h
    obtain ⟨i, d⟩ := q
    rw [firstMinTag] at h
    cases ht : firstMinTag t with
    | none =>
      rw [ht] at h
      dsimp only at h
      injection h with h
      exact h ▸ List.mem_cons_self _ _
    | some jm =>
      obtain ⟨j, m⟩ := jm
      rw [ht] at h
      dsimp only at h
      split_ifs at h <;> injection h with h
      · exact h ▸ List.mem_cons_self _ _
      · exact List.mem_cons_of_mem _ (h ▸ ih _ ht)

/-- The minimal tagged distance over mapped hit distances is
nonnegative. -/
theorem firstMinTag_dist_nonneg (x y : ℚ) (t : List (ℕ × HistEntry)) (j : ℕ) (m : ℚ)
    (h : firstMinTag ((t.filter (fun p => p.2.selectable)).map
        (fun p => (p.1, hitDistSq x y (getDimBox p.2)))) = some (j, m)) :
    0 ≤ m := by
  have hm := firstMinTag_mem _ _ h
  obtain ⟨q, _, hq⟩ := List.mem_map.mp hm
  have : m = hitDistSq x y (getDimBox q.2) := (congrArg Prod.snd hq).symm
  rw [this]
  exact hitDistSq_nonneg _ _ _

/-- Once `minDistance` is non-positive the scan returns the recorded
index unchanged (the loop condition `minDistance > 0` fails). -/
theorem mouseDownScan_nonpos (x y : ℚ) (l : List (ℕ × HistEntry)) (minD : ℚ)
    (ci : Option ℕ) (h : minD ≤ 0) : mouseDownScan x y l minD ci = ci := by
  cases l with
  | nil => rfl
  | cons p t =>
    obtain ⟨i, e⟩ := p
    rw [mouseDownScan, if_pos h]

/-- The scan computes the first selectable entry attaining the minimal
effective distance, gated by the running minimum `minD`. -/
theorem mouseDownScan_eq (x y : ℚ) (l : List (ℕ × HistEntry)) :
    ∀ (minD : ℚ) (ci : Option ℕ), 0 < minD →
      mouseDownScan x y l minD ci =
        match firstMinTag ((l.filter (fun p => p.2.selectable)).map
            (fun p => (p.1, hitDistSq x y (getDimBox p.2)))) with
        | none => ci
        | some jm => if jm.2 < minD then some jm.1 else ci := by
  induction l with
  | nil => intro minD ci _; rfl
  | cons q t ih =>
    intro minD ci hpos
    obtain ⟨i, e⟩ := q
    rw [mouseDownScan, if_neg (not_le.mpr hpos)]
    by_cases hsel : e.selectable = true
    · rw [List.filter_cons_of_pos (by simpa using hsel), List.map_cons,
        if_neg (by simp [hsel]), firstMinTag]
      by_cases hin : (getDimBox e).left < x ∧ (getDimBox e).right > x ∧
          (getDimBox e).top < y ∧ (getDimBox e).bottom > y
      · have hd0 : hitDistSq x y (getDimBox e) = 0 := by
          unfold hitDistSq; rw [if_pos hin]
        rw [if_pos hin, mouseDownScan_nonpos x y t 0 (some i) (le_refl 0)]
        cases ht : firstMinTag ((t.filter (fun p => p.2.selectable)).map
            (fun p => (p.1, hitDistSq x y (getDimBox p.2)))) with
        | none => simp [hd0, hpos]
        | some jm =>
          obtain ⟨j, m⟩ := jm
          have hm0 : 0 ≤ m := firstMinTag_dist_nonneg x y t j m ht
          simp [hd0, hm0, hpos]
      · have hd0 : hitDistSq x y (getDimBox e) = distSqEdges x y (getDimBox e) := by
          unfold hitDistSq; rw [if_neg hin]
        rw [if_neg hin]
        by_cases hlt : distSqEdges x y (getDimBox e) < minD
        · rw [if_pos hlt]
          rcases eq_or_lt_of_le (distSqEdges_nonneg x y (getDimBox e)) with hz | hgt
          · rw [mouseDownScan_nonpos x y t _ (some i) (le_of_eq hz.symm)]
            cases ht : firstMinTag ((t.filter (fun p => p.2.selectable)).map
                (fun p => (p.1, hitDistSq x y (getDimBox p.2)))) with
            | none => simp [hd0, hlt]
            | some jm =>
              obtain ⟨j, m⟩ := jm
              have hm0 : 0 ≤ m := firstMinTag_dist_nonneg x y t j m ht
              have hdm : distSqEdges x y (getDimBox e) ≤ m := hz ▸ hm0
              simp [hd0, hdm, hlt]
          · rw [ih _ (some i) hgt]
            cases ht : firstMinTag ((t.filter (fun p => p.2.selectable)).map
                (fun p => (p.1, hitDistSq x y (getDimBox p.2)))) with
            | none => simp [hd0, hlt]
            | some jm =>
              obtain ⟨j, m⟩ := jm
              by_cases hdm : distSqEdges x y (getDimBox e) ≤ m
              · simp [hd0, hdm, hlt, not_lt.mpr hdm]
              · have h1 : m < distSqEdges x y (getDimBox e) := lt_of_not_le hdm
                simp [hd0, hdm, h1, lt_trans h1 hlt]
        · rw [if_neg hlt, ih _ ci hpos]
          cases ht : firstMinTag ((t.filter (fun p => p.2.selectable)).map
              (fun p => (p.1, hitDistSq x y (getDimBox p.2)))) with
          | none => simp [hd0, hlt]
          | some jm =>
            obtain ⟨j, m⟩ := jm
            by_cases hdm : distSqEdges x y (getDimBox e) ≤ m
            · have h2 : ¬ m < minD := fun hmlt => hlt (lt_of_le_of_lt hdm hmlt)
              simp [hd0, hdm, hlt, h2]
            · simp [hd0, hdm]
    · have hsel2 : e.selectable = false := by
        simpa using hsel
      rw [List.filter_cons_of_neg (by simpa using hsel2), if_pos hsel2]
      exact ih minD ci hpos

/-- Counterexample to claim C2 as stated: at pointer (50, 20) neither
box contains the point; under the claim's clamped metric box A (index
0) is strictly closer (100 against 400), yet the code returns index 1,
because its `dx`/`dy` are distances to the nearer box edges — not
clamped to zero inside the box's horizontal span. -/
theorem c2_counterexample :
    mouseDownHit histC2 50 20 = some 1 ∧
    clampDistSq 50 20 boxC2A < clampDistSq 50 20 boxC2B ∧
    ¬ (boxC2A.left < 50 ∧ boxC2A.right > 50 ∧ boxC2A.top < 20 ∧ boxC2A.bottom > 20) ∧
    ¬ (boxC2B.left < 50 ∧ boxC2B.right > 50 ∧ boxC2B.top < 20 ∧ boxC2B.bottom > 20) := by
  refine ⟨?_, by norm_num [clampDistSq, boxC2A, boxC2B],
    by norm_num [boxC2A], by norm_num [boxC2B]⟩
  norm_num [mouseDownHit, mouseDownScan, histC2, getDimBox, hitDistSq,
    distSqEdges, boxC2A, boxC2B, List.enum, List.enumFrom]

/-- Claim C2 (amended): the hit test returns the first selectable
entry attaining the minimum effective distance, where the distance is
0 for a box strictly containing the point and otherwise the
hypotenuse of the distances to the nearer vertical and horizontal box
edges (`min (x-left, x-right)` / `min (y-top, y-bottom)` in absolute
value, not the clamped projection); it returns no match when no
selectable entry exists or none lies below the 9999999 sentinel. -/
theorem c2_amended (history : List HistEntry) (x y : ℚ) :
    mouseDownHit history x y = specHitFirstMin history x y := by
  unfold mouseDownHit specHitFirstMin
  rw [mouseDownScan_eq x y history.enum (9999999 * 9999999) none (by norm_num)]
  cases ht : firstMinTag ((history.enum.filter (fun p => p.2.selectable)).map
      (fun p => (p.1, hitDistSq x y (getDimBox p.2)))) with
  | none => rfl
  | some jm =>
    obtain ⟨j, m⟩ := jm
    rfl

/-! ### Helper lemmas for combineHistory -/

/-- `getDim` does not change what box the entry presents. -/
theorem getDimBox_getDim (e : HistEntry) : getDimBox (getDim e).1 = getDimBox e := by
  cases h : e.dim <;> simp [getDim, getDimBox, h]

/-- `getDim` performs a computation exactly when the cache is empty. -/
theorem getDim_snd (e : HistEntry) : (getDim e).2 = if e.dim.isNone then 1 else 0 := by
  cases h : e.dim <;> simp [getDim, h]

/-- The total number of `getBBox` computations over a list of entries
is the number of entries without a cached dimension. -/
theorem sum_getDim_snd (l : List HistEntry) :
    (l.map (fun e => (getDim e).2)).sum =
      (l.filter (fun e => e.dim.isNone)).length := by
  induction l with
  | nil => rfl
  | cons e t ih =>
    rw [List.map_cons, List.sum_cons, ih, getDim_snd, List.filter_cons]
    cases h : e.dim
    · simp [h]
      omega
    · simp [h]

/-- Left component of the running box union. -/
theorem foldl_combBox_left (l : List Box) :
    ∀ b : Box, (l.foldl combBox b).left = (l.map Box.left).foldl min b.left := by
  induction l with
  | nil => intro b; rfl
  | cons d t ih =>
    intro b
    rw [List.foldl_cons, List.map_cons, List.foldl_cons]
    exact ih (combBox b d)

/-- Top component of the running box union. -/
theorem foldl_combBox_top (l : List Box) :
    ∀ b : Box, (l.foldl combBox b).top = (l.map Box.top).foldl min b.top := by
  induction l with
  | nil => intro b; rfl
  | cons d t ih =>
    intro b
    rw [List.foldl_cons, List.map_cons, List.foldl_cons]
    exact ih (combBox b d)

/-- Right component of the running box union. -/
theorem foldl_combBox_right (l : List Box) :
    ∀ b : Box, (l.foldl combBox b).right = (l.map Box.right).foldl max b.right := by
  induction l with
  | nil => intro b; rfl
  | cons d t ih =>
    intro b
    rw [List.foldl_cons, List.map_cons, List.foldl_cons]
    exact ih (combBox b d)

/-- Bottom component of the running box union. -/
theorem foldl_combBox_bottom (l : List Box) :
    ∀ b : Box, (l.foldl combBox b).bottom = (l.map Box.bottom).foldl max b.bottom := by
  induction l with
  | nil => intro b; rfl
  | cons d t ih =>
    intro b
    rw [List.foldl_cons, List.map_cons, List.foldl_cons]
    exact ih (combBox b d)

/-- A running `min` fold is bounded by its initial value. -/
theorem foldl_min_le_init (l : List ℚ) : ∀ a : ℚ, l.foldl min a ≤ a := by
  induction l with
  | nil => intro a; exact le_refl a
  | cons q t ih =>
    intro a
    exact le_trans (ih (min a q)) (min_le_left a q)

/-- A running `min` fold is bounded by every member. -/
theorem foldl_min_le_mem (l : List ℚ) (q : ℚ) (hq : q ∈ l) :
    ∀ a : ℚ, l.foldl min a ≤ q := by
  induction l with
  | nil => cases hq
  | cons r t ih =>
    intro a
    rcases List.mem_cons.mp hq with h | h
    · subst h
      exact le_trans (foldl_min_le_init t (min a q)) (min_le_right a q)
    · exact ih h (min a r)

/-- A running `min` fold equals the initial value or some member. -/
theorem foldl_min_eq_init_or_mem (l : List ℚ) :
    ∀ a : ℚ, l.foldl min a = a ∨ l.foldl min a ∈ l := by
  induction l with
  | nil => intro a; exact Or.inl rfl
  | cons q t ih =>
    intro a
    rcases ih (min a q) with h | h
    · rcases min_choice a q with hm | hm
      · exact Or.inl (h.trans hm)
      · exact Or.inr (List.mem_cons.mpr (Or.inl (h.trans hm)))
    · exact Or.inr (List.mem_cons.mpr (Or.inr h))

/-- A running `max` fold dominates its initial value. -/
theorem foldl_max_ge_init (l : List ℚ) : ∀ a : ℚ, a ≤ l.foldl max a := by
  induction l with
  | nil => intro a; exact le_refl a
  | cons q t ih =>
    intro a
    exact le_trans (le_max_left a q) (ih (max a q))

/-- A running `max` fold dominates every member. -/
theorem foldl_max_ge_mem (l : List ℚ) (q : ℚ) (hq : q ∈ l) :
    ∀ a : ℚ, q ≤ l.foldl max a := by
  induction l with
  | nil => cases hq
  | cons r t ih =>
    intro a
    rcases List.mem_cons.mp hq with h | h
    · subst h
      exact le_trans (le_max_right a q) (foldl_max_ge_init t (max a q))
    · exact ih h (max a r)

/-- A running `max` fold equals the initial value or some member. -/
theorem foldl_max_eq_init_or_mem (l : List ℚ) :
    ∀ a : ℚ, l.foldl max a = a ∨ l.foldl max a ∈ l := by
  induction l with
  | nil => intro a; exact Or.inl rfl
  | cons q t ih =>
    intro a
    rcases ih (max a q) with h | h
    · rcases max_choice a q with hm | hm
      · exact Or.inl (h.trans hm)
      · exact Or.inr (List.mem_cons.mpr (Or.inl (h.trans hm)))
    · exact Or.inr (List.mem_cons.mpr (Or.inr h))

/-- Claim C5: `combineHistory n prim` with `2 ≤ n ≤ length` removes
the last `n` entries and appends exactly one entry whose cached box is
the coordinate-wise union (min of lefts/tops, max of rights/bottoms)
of the removed entries' boxes, whose drawn primitive is the
replacement; the box of each removed entry is computed at most once
(the `getBBox` count equals the number of entries without a cached
box); the length decreases by `n - 1`. -/
theorem combineHistory_spec (history : List HistEntry) (n : ℕ) (svg : BBox)
    (h2 : 2 ≤ n) (hn : n ≤ history.length) :
    (combineHistory n svg history).1.length + n = history.length + 1 ∧
    (∃ e : HistEntry,
      (combineHistory n svg history).1 =
        history.take (history.length - n) ++ [e] ∧
      e.svgEl = svg ∧
      ∃ u : Box, e.dim = some u ∧
        (∀ r ∈ history.drop (history.length - n),
          u.left ≤ (getDimBox r).left ∧ u.top ≤ (getDimBox r).top ∧
          (getDimBox r).right ≤ u.right ∧ (getDimBox r).bottom ≤ u.bottom) ∧
        (∃ r ∈ history.drop (history.length - n), u.left = (getDimBox r).left) ∧
        (∃ r ∈ history.drop (history.length - n), u.top = (getDimBox r).top) ∧
        (∃ r ∈ history.drop (history.length - n), u.right = (getDimBox r).right) ∧
        (∃ r ∈ history.drop (history.length - n), u.bottom = (getDimBox r).bottom)) ∧
    (combineHistory n svg history).2 =
      ((history.drop (history.length - n)).filter (fun r => r.dim.isNone)).length ∧
    (combineHistory n svg history).2 ≤ n := by
  have hrevlen : (history.drop (history.length - n)).length = n := by
    rw [List.length_drop]; omega
  cases hI : (history.drop (history.length - n)).reverse with
  | nil =>
    exfalso
    have hlen0 := congrArg List.length hI
    rw [List.length_reverse, hrevlen] at hlen0
    simp at hlen0
    omega
  | cons i0 irest =>
    have hcomb : combineHistory n svg history =
        (history.take (history.length - n) ++
          [{ selectable := (getDim i0).1.selectable, svgEl := svg,
             dim := some (((irest.map getDim).map (fun p => getDimBox p.1)).foldl
               combBox (getDimBox (getDim i0).1)) }],
         (getDim i0).2 + ((irest.map getDim).map (fun p => p.2)).sum) := by
      unfold combineHistory
      rw [if_neg (by omega : ¬ n < 2), hI]
    have hmem : ∀ z : HistEntry,
        z ∈ (i0 :: irest) ↔ z ∈ history.drop (history.length - n) := by
      intro z
      constructor
      · intro h
        exact List.mem_reverse.mp (hI ▸ h)
      · intro h
        exact hI ▸ List.mem_reverse.mpr h
    have hboxes : (irest.map getDim).map (fun p => getDimBox p.1) =
        irest.map getDimBox := by
      rw [List.map_map]
      simp [Function.comp, getDimBox_getDim]
    have hirlen : irest.length + 1 = n := by
      have := congrArg List.length hI
      rw [List.length_reverse, hrevlen] at this
      simpa using this.symm
    refine ⟨?_, ?_, ?_, ?_⟩
    · rw [hcomb]
      simp only [List.length_append, List.length_take, List.length_singleton]
      omega
    · refine ⟨_, by rw [hcomb], rfl, _, rfl, ?_, ?_, ?_, ?_, ?_⟩
      · intro r hr
        rw [hboxes, getDimBox_getDim, foldl_combBox_left, foldl_combBox_top,
          foldl_combBox_right, foldl_combBox_bottom, List.map_map, List.map_map,
          List.map_map, List.map_map]
        rcases List.mem_cons.mp ((hmem r).mpr hr) with h | h
        · subst h
          exact ⟨foldl_min_le_init _ _, foldl_min_le_init _ _,
            foldl_max_ge_init _ _, foldl_max_ge_init _ _⟩
        · refine ⟨foldl_min_le_mem _ _ (List.mem_map_of_mem _ h) _,
            foldl_min_le_mem _ _ (List.mem_map_of_mem _ h) _,
            foldl_max_ge_mem _ _ (List.mem_map_of_mem _ h) _,
            foldl_max_ge_mem _ _ (List.mem_map_of_mem _ h) _⟩
      · rw [hboxes, getDimBox_getDim, foldl_combBox_left, List.map_map]
        rcases foldl_min_eq_init_or_mem
            (irest.map fun e => (getDimBox e).left) ((getDimBox i0).left) with h | h
        · exact ⟨i0, (hmem i0).mp (List.mem_cons_self _ _), h⟩
        · obtain ⟨r, hr, hrq⟩ := List.mem_map.mp h
          exact ⟨r, (hmem r).mp (List.mem_cons_of_mem _ hr), hrq ▸ rfl⟩
      · rw [hboxes, getDimBox_getDim, foldl_combBox_top, List.map_map]
        rcases foldl_min_eq_init_or_mem
            (irest.map fun e => (getDimBox e).top) ((getDimBox i0).top) with h | h
        · exact ⟨i0, (hmem i0).mp (List.mem_cons_self _ _), h⟩
        · obtain ⟨r, hr, hrq⟩ := List.mem_map.mp h
          exact ⟨r, (hmem r).mp (List.mem_cons_of_mem _ hr), hrq ▸ rfl⟩
      · rw [hboxes, getDimBox_getDim, foldl_combBox_right, List.map_map]
        rcases foldl_max_eq_init_or_mem
            (irest.map fun e => (getDimBox e).right) ((getDimBox i0).right) with h | h
        · exact ⟨i0, (hmem i0).mp (List.mem_cons_self _ _), h⟩
        · obtain ⟨r, hr, hrq⟩ := List.mem_map.mp h
          exact ⟨r, (hmem r).mp (List.mem_cons_of_mem _ hr), hrq ▸ rfl⟩
      · rw [hboxes, getDimBox_getDim, foldl_combBox_bottom, List.map_map]
        rcases foldl_max_eq_init_or_mem
            (irest.map fun e => (getDimBox e).bottom) ((getDimBox i0).bottom) with h | h
        · exact ⟨i0, (hmem i0).mp (List.mem_cons_self _ _), h⟩
        · obtain ⟨r, hr, hrq⟩ := List.mem_map.mp h
          exact ⟨r, (hmem r).mp (List.mem_cons_of_mem _ hr), hrq ▸ rfl⟩
    · rw [hcomb]
      have hstep : (getDim i0).2 + ((irest.map getDim).map (fun p => p.2)).sum =
          ((i0 :: irest).map (fun e => (getDim e).2)).sum := by
        rw [List.map_cons, List.sum_cons, List.map_map]
        rfl
      dsimp only
      rw [hstep, sum_getDim_snd, ← hI, List.filter_reverse, List.length_reverse]
    · rw [hcomb]
      dsimp only
      have hstep : (getDim i0).2 + ((irest.map getDim).map (fun p => p.2)).sum =
          ((i0 :: irest).map (fun e => (getDim e).2)).sum := by
        rw [List.map_cons, List.sum_cons, List.map_map]
        rfl
      rw [hstep, sum_getDim_snd]
      calc ((i0 :: irest).filter (fun e => e.dim.isNone)).length
          ≤ (i0 :: irest).length := List.length_filter_le _ _
        _ = n := by simpa using hirlen

/-- Witness for C5: combining the three entries of `histC5` (two
uncached, one cached). -/
theorem combineHistory_spec_witness :
    2 ≤ 3 ∧ 3 ≤ histC5.length ∧
    ((combineHistory 3 { x := 7, y := 7, width := 7, height := 7 } histC5).1.length + 3 =
        histC5.length + 1 ∧
    (∃ e : HistEntry,
      (combineHistory 3 { x := 7, y := 7, width := 7, height := 7 } histC5).1 =
        histC5.take (histC5.length - 3) ++ [e] ∧
      e.svgEl = { x := 7, y := 7, width := 7, height := 7 } ∧
      ∃ u : Box, e.dim = some u ∧
        (∀ r ∈ histC5.drop (histC5.length - 3),
          u.left ≤ (getDimBox r).left ∧ u.top ≤ (getDimBox r).top ∧
          (getDimBox r).right ≤ u.right ∧ (getDimBox r).bottom ≤ u.bottom) ∧
        (∃ r ∈ histC5.drop (histC5.length - 3), u.left = (getDimBox r).left) ∧
        (∃ r ∈ histC5.drop (histC5.length - 3), u.top = (getDimBox r).top) ∧
        (∃ r ∈ histC5.drop (histC5.length - 3), u.right = (getDimBox r).right) ∧
        (∃ r ∈ histC5.drop (histC5.length - 3), u.bottom = (getDimBox r).bottom)) ∧
    (combineHistory 3 { x := 7, y := 7, width := 7, height := 7 } histC5).2 =
      ((histC5.drop (histC5.length - 3)).filter (fun r => r.dim.isNone)).length ∧
    (combineHistory 3 { x := 7, y := 7, width := 7, height := 7 } histC5).2 ≤ 3) :=
  ⟨by norm_num, by decide,
    combineHistory_spec histC5 3 { x := 7, y := 7, width := 7, height := 7 }
      (by norm_num) (by decide)⟩

/-- Claim C10: `combineHistory` with a count below 2 returns without
touching the history; the replacement primitive is ignored (and no
box is computed). -/
theorem combineHistory_small (history : List HistEntry) (n : ℕ) (svg : BBox)
    (h : n < 2) : combineHistory n svg history = (history, 0) := by
  unfold combineHistory
  rw [if_pos h]

/-- Witness for C10 at count 1 on a nonempty history. -/
theorem combineHistory_small_witness :
    (1 : ℕ) < 2 ∧
    combineHistory 1 { x := 0, y := 0, width := 0, height := 0 } histC5 = (histC5, 0) :=
  ⟨by norm_num,
    combineHistory_small histC5 1 { x := 0, y := 0, width := 0, height := 0 } (by norm_num)⟩

/-! ### Helper lemmas for the rest-centering pass -/

/-- The inner loop preserves the voice length. -/
theorem centerVoiceAux_length (l : List AbsElem) :
    ∀ prev : AbsElem, (centerVoiceAux prev l).length = l.length := by
  induction l with
  | nil => intro prev; rfl
  | cons a t ih =>
    intro prev
    cases t with
    | nil => rfl
    | cons b r =>
      rw [centerVoiceAux]
      split_ifs with h
      · simp only [List.length_cons]
        rw [ih (centerEl a prev.x b.x)]
        simp
      · simp only [List.length_cons]
        rw [ih a]
        simp

/-- The pass preserves the voice length. -/
theorem centerVoice_length (v : List AbsElem) :
    (centerVoice v).length = v.length := by
  cases v with
  | nil => rfl
  | cons a t =>
    rw [centerVoice]
    simp [centerVoiceAux_length]

/-- Elements that are not centered (not a whole/multimeasure rest, or
in last position) come out of the inner loop unchanged. -/
theorem centerVoiceAux_get_unchanged (l : List AbsElem) :
    ∀ (prev : AbsElem) (k : ℕ) (el : AbsElem), l.get? k = some el →
      (l.length ≤ k + 1 ∨ isCenterRest el = false) →
      (centerVoiceAux prev l).get? k = some el := by
  induction l with
  | nil =>
    intro prev k el h _
    simp at h
  | cons a t ih =>
    intro prev k el h hcond
    cases t with
    | nil =>
      rw [centerVoiceAux]
      exact h
    | cons b r =>
      rw [centerVoiceAux]
      cases k with
      | zero =>
        have hel : a = el := by simpa using h
        rcases hcond with hlen | hrest
        · exfalso
          simp at hlen
        · subst hel
          rw [if_neg (by simp [hrest])]
          simp
      | succ kp =>
        have ht : (b :: r).get? kp = some el := by simpa using h
        have hcond2 : (b :: r).length ≤ kp + 1 ∨ isCenterRest el = false := by
          rcases hcond with hlen | hrest
          · left
            simp at hlen ⊢
            omega
          · right
            exact hrest
        split_ifs with hc
        · rw [List.get?_cons_succ]
          exact ih (centerEl a prev.x b.x) kp el ht hcond2
        · rw [List.get?_cons_succ]
          exact ih a kp el ht hcond2

/-- A centered rest at interior position `k` of the loop's list comes
out re-centered between the final value of its left neighbour and the
pre-pass value of its right neighbour. -/
theorem centerVoiceAux_get_centered (l : List AbsElem) :
    ∀ (prev : AbsElem) (k : ℕ) (el : AbsElem), l.get? k = some el →
      k + 1 < l.length → isCenterRest el = true →
      ∃ ne, l.get? (k + 1) = some ne ∧
        ((k = 0 ∧ (centerVoiceAux prev l).get? 0 = some (centerEl el prev.x ne.x)) ∨
         (0 < k ∧ ∃ pe, (centerVoiceAux prev l).get? (k - 1) = some pe ∧
           (centerVoiceAux prev l).get? k = some (centerEl el pe.x ne.x))) := by
  induction l with
  | nil =>
    intro prev k el h _ _
    simp at h
  | cons a t ih =>
    intro prev k el h hk hrest
    cases t with
    | nil =>
      exfalso
      simp at hk
    | cons b r =>
      cases k with
      | zero =>
        have hel : a = el := by simpa using h
        subst hel
        refine ⟨b, by simp, Or.inl ⟨rfl, ?_⟩⟩
        rw [centerVoiceAux, if_pos hrest]
        simp
      | succ kp =>
        have ht : (b :: r).get? kp = some el := by simpa using h
        have hk2 : kp + 1 < (b :: r).length := by
          simp at hk ⊢
          omega
        rw [centerVoiceAux]
        split_ifs with hc
        · obtain ⟨ne, hne, hcase⟩ := ih (centerEl a prev.x b.x) kp el ht hk2 hrest
          refine ⟨ne, by simpa using hne, Or.inr ⟨Nat.succ_pos kp, ?_⟩⟩
          rcases hcase with ⟨hk0, haux⟩ | ⟨hkpos, pe, hpe, haux⟩
          · subst hk0
            refine ⟨centerEl a prev.x b.x, by simp, ?_⟩
            simpa using haux
          · refine ⟨pe, ?_, ?_⟩
            · cases kp with
              | zero => omega
              | succ k2 => simpa using hpe
            · simpa using haux
        · obtain ⟨ne, hne, hcase⟩ := ih a kp el ht hk2 hrest
          refine ⟨ne, by simpa using hne, Or.inr ⟨Nat.succ_pos kp, ?_⟩⟩
          rcases hcase with ⟨hk0, haux⟩ | ⟨hkpos, pe, hpe, haux⟩
          · subst hk0
            refine ⟨a, by simp, ?_⟩
            simpa using haux
          · refine ⟨pe, ?_, ?_⟩
            · cases kp with
              | zero => omega
              | succ k2 => simpa using hpe
            · simpa using haux

/-- The first element of a voice is never moved. -/
theorem centerVoice_get_head (v : List AbsElem) (el : AbsElem)
    (h : v.get? 0 = some el) : (centerVoice v).get? 0 = some el := by
  cases v with
  | nil => simp at h
  | cons a t =>
    rw [centerVoice]
    simpa using h

/-- Counterexample to claim C6 as stated: in `voiceC6x` (notes at 0
and 20 around two adjacent whole rests of width 2), the pass yields
x-positions [0, 4, 11, 20].  The first rest's final x (4) is not the
midpoint of its neighbours' final positions minus half its width
(which would be (11 - 0)/2 + 0 - 1 = 4.5), because the right
neighbour moves after it is read; reading both neighbours pre-pass
also fails at the second rest (11 against (20 - 3)/2 + 3 - 1
= 10.5), because the left neighbour is read after being moved. -/
theorem c6_counterexample :
    (centerWholeRests [voiceC6x]).get? 0 = some (centerVoice voiceC6x) ∧
    (centerVoice voiceC6x).map (fun e => e.x) = [0, 4, 11, 20] ∧
    ¬ ((4 : ℚ) = (11 - 0) / 2 + 0 - 2 / 2) ∧
    ¬ ((11 : ℚ) = (20 - 3) / 2 + 3 - 2 / 2) := by
  refine ⟨rfl, ?_, by norm_num, by norm_num⟩
  norm_num [centerVoice, centerVoiceAux, centerEl, isCenterRest, voiceC6x]

/-- Claim C6 (amended): the pass maps each voice through `centerVoice`
preserving length; elements that are not whole/multimeasure rests, the
first element, and the last element are unchanged; and every interior
whole/multimeasure rest ends at the midpoint of its left neighbour's
final (post-pass) x and its right neighbour's pre-pass x, minus half
its own width, with that x propagated to all its sub-elements
(`centerEl`).  (The claim's symmetric final-neighbour reading fails
for adjacent whole rests, see `c6_counterexample`.) -/
theorem c6_amended (voices : List (List AbsElem)) (i : ℕ) (v : List AbsElem)
    (hv : voices.get? i = some v) :
    (centerWholeRests voices).get? i = some (centerVoice v) ∧
    (centerVoice v).length = v.length ∧
    (∀ el, v.get? 0 = some el → (centerVoice v).get? 0 = some el) ∧
    (∀ k el, v.get? k = some el →
      (v.length ≤ k + 1 ∨ isCenterRest el = false) →
      (centerVoice v).get? k = some el) ∧
    (∀ k el, v.get? k = some el → 0 < k → k + 1 < v.length →
      isCenterRest el = true →
      ∃ ne, v.get? (k + 1) = some ne ∧
      ∃ pe, (centerVoice v).get? (k - 1) = some pe ∧
        (centerVoice v).get? k = some (centerEl el pe.x ne.x)) := by
  refine ⟨?_, centerVoice_length v, fun el h => centerVoice_get_head v el h, ?_, ?_⟩
  · unfold centerWholeRests
    rw [List.get?_map, hv]
    rfl
  · intro k el hel hcond
    cases v with
    | nil => simp at hel
    | cons a t =>
      cases k with
      | zero => exact centerVoice_get_head _ _ hel
      | succ kp =>
        rw [centerVoice, List.get?_cons_succ]
        have ht : t.get? kp = some el := by simpa using hel
        refine centerVoiceAux_get_unchanged t a kp el ht ?_
        rcases hcond with hlen | hrest
        · left
          simp at hlen ⊢
          omega
        · right
          exact hrest
  · intro k el hel hkpos hklt hrest
    cases v with
    | nil => simp at hel
    | cons a t =>
      cases k with
      | zero => omega
      | succ kp =>
        have ht : t.get? kp = some el := by simpa using hel
        have hk2 : kp + 1 < t.length := by
          simp at hklt
          omega
        obtain ⟨ne, hne, hcase⟩ := centerVoiceAux_get_centered t a kp el ht hk2 hrest
        refine ⟨ne, by simpa using hne, ?_⟩
        rcases hcase with ⟨hk0, haux⟩ | ⟨hk1, pe, hpe, haux⟩
        · subst hk0
          refine ⟨a, ?_, ?_⟩
          · rw [centerVoice]
            simp
          · rw [centerVoice]
            simpa using haux
        · refine ⟨pe, ?_, ?_⟩
          · rw [centerVoice]
            cases kp with
            | zero => omega
            | succ k2 => simpa using hpe
          · rw [centerVoice]
            simpa using haux

/-- Witness for C6 (amended) on `voiceC6` (the spec's example: left
neighbour at 10, right neighbour at 50, one whole rest between). -/
theorem c6_amended_witness :
    [voiceC6].get? 0 = some voiceC6 ∧
    ((centerWholeRests [voiceC6]).get? 0 = some (centerVoice voiceC6) ∧
    (centerVoice voiceC6).length = voiceC6.length ∧
    (∀ el, voiceC6.get? 0 = some el → (centerVoice voiceC6).get? 0 = some el) ∧
    (∀ k el, voiceC6.get? k = some el →
      (voiceC6.length ≤ k + 1 ∨ isCenterRest el = false) →
      (centerVoice voiceC6).get? k = some el) ∧
    (∀ k el, voiceC6.get? k = some el → 0 < k → k + 1 < voiceC6.length →
      isCenterRest el = true →
      ∃ ne, voiceC6.get? (k + 1) = some ne ∧
      ∃ pe, (centerVoice voiceC6).get? (k - 1) = some pe ∧
        (centerVoice voiceC6).get? k = some (centerEl el pe.x ne.x))) :=
  ⟨rfl, c6_amended [voiceC6] 0 voiceC6 rfl⟩

end Abcjs
